import Mathlib

/-!
Synchronizer: snapshot diff, path classification, bootstrap and polling loop.

A shallow embedding of `src/synchronizer/synchronizer.go` and
`src/synchronizer/utils.go`.

* Go strings are embedded as Lean `String`s (sequences of characters); the
  only separators and constants the code compares against are ASCII.
* A Go `map[string]fsItem` is embedded as the list of its entries in the order
  a `range` loop visits them.  A well formed map has pairwise distinct keys
  (`tree.WF`); two lists that are permutations of each other are two
  enumeration orders of the same map.
* `int64` sizes are embedded as `Int`: the code only compares them.
* Calls into the operating system, the JSON library and the files of the
  package that are not at hand are fields of an environment (`Bridge`, `Sys`)
  acting on a world `σ`; `simSys` is one concrete environment to run the
  code in.
-/

set_option linter.dupNamespace false

namespace Synchronizer

/-! ## Constants (synchronizer.go, lines 17-25) -/

def StructuralDataFileName : String := "structural_data.json"
def MetaDataFileName : String := "meta.json"
def LuaScriptDataFileName : String := "script.lua"
def SyncInfoFileName : String := ".fader_index"

/-! ## Library functions used by the code -/

/-- The instant a Go `time.Time` denotes: seconds and nanoseconds since the
epoch, an optional monotonic clock reading and the location it is shown in. -/
structure Time where
  sec : Int
  nsec : Nat
  mono : Option Int
  loc : String
deriving DecidableEq, Repr

/-- Go `Time.Equal`: when both values carry a monotonic reading those are
compared, otherwise the instants; the location never matters. -/
def Time.Equal (t u : Time) : Bool :=
  match t.mono, u.mono with
  | some a, some b => a == b
  | _, _ => t.sec == u.sec && t.nsec == u.nsec

/-- The zero `time.Time`. -/
def Time.zero : Time := ⟨0, 0, none, ""⟩

/-- Go `strings.HasSuffix`. -/
def HasSuffix (s suffix : String) : Bool :=
  suffix.data.isSuffixOf s.data

/-- The loop of Go `strings.genSplit` for a one character separator: cut at
the first `k` separators, the remainder is the last piece. -/
def splitLoop (sep : Char) : List Char → Nat → List (List Char)
  | s, 0 => [s]
  | s, k + 1 =>
    match s.span (fun c => c != sep) with
    | (a, []) => [a]
    | (a, _ :: rest) => a :: splitLoop sep rest k

/-- Go `strings.SplitN(s, sep, n)` for a one character separator: `n = 0`
gives no piece, `n < 0` all pieces, `n > 0` at most `n` pieces of which the
last is the unsplit remainder. -/
def SplitN (s : String) (sep : Char) (n : Int) : List String :=
  if n = 0 then []
  else
    let k := if n < 0 then s.data.count sep else (n - 1).toNat
    (splitLoop sep s.data k).map String.mk

/-! ## The snapshot (synchronizer.go, lines 291-299) -/

/-- The record `fsItem`. -/
structure fsItem where
  Path : String
  Size : Int
  ModTime : Time
  Hash : String
  IsDir : Bool
deriving DecidableEq, Repr

/-- The zero value of `fsItem`, which a Go map read gives for a missing key. -/
def fsItem.zero : fsItem := ⟨"", 0, Time.zero, "", false⟩

/-- The type `tree`, a `map[string]fsItem`: its entries in iteration order. -/
abbrev tree := List (String × fsItem)

/-- The keys of a map, in iteration order. -/
def tree.keys (t : tree) : List String := t.map Prod.fst

/-- A list of entries is a map when no key occurs twice. -/
def tree.WF (t : tree) : Prop := t.keys.Nodup

instance (t : tree) : Decidable t.WF :=
  inferInstanceAs (Decidable t.keys.Nodup)

/-- The two-valued map read `v, has := t[path]`. -/
def tree.get (t : tree) (path : String) : fsItem × Bool :=
  match t.lookup path with
  | some v => (v, true)
  | none => (fsItem.zero, false)

/-! ## Change operations (synchronizer.go, lines 362-375) -/

abbrev ops := Int

def create : ops := 1
def unlink : ops := 2
def rmDir : ops := 3
def mkDir : ops := 4
def change : ops := 5

/-- The record `Op`. -/
structure Op where
  Path : String
  Op : ops
deriving DecidableEq, Repr

/-! ## `tree.Calculate` (synchronizer.go, lines 377-414) -/

/-- The body of the first loop of `Calculate` (lines 382-400): the ops one
entry of `current` appends to `updates`. -/
def checkNew (prev : tree) (updates : List Op) (e : String × fsItem) : List Op :=
  let path := e.1
  let item := e.2
  if HasSuffix path SyncInfoFileName then updates
  else
    let (prevItem, has) := prev.get path
    if !has then
      if prevItem.IsDir then updates ++ [⟨path, mkDir⟩]
      else updates ++ [⟨path, create⟩]
    else if !item.IsDir &&
        (!item.ModTime.Equal prevItem.ModTime || item.Size != prevItem.Size) then
      updates ++ [⟨path, change⟩]
    else updates

/-- The body of the second loop of `Calculate` (lines 403-411). -/
def checkDeletes (current : tree) (updates : List Op) (e : String × fsItem) : List Op :=
  let path := e.1
  let prevItem := e.2
  let (_, has) := current.get path
  if !has then
    if prevItem.IsDir then updates ++ [⟨path, rmDir⟩]
    else updates ++ [⟨path, unlink⟩]
  else updates

/-- The function `prev.Calculate(current)`. -/
def Calculate (prev current : tree) : List Op :=
  let updates : List Op := []
  let updates := current.foldl (checkNew prev) updates
  let updates := prev.foldl (checkDeletes current) updates
  updates

/-! ## `detectUsedType` (utils.go, lines 84-95) -/

/-- Modelled from the spec: the four data slots of a virtual file, the
constants of the type `interfaces.DataUsed` whose declaration is in another
package. -/
inductive DataUsed where
  | RawData
  | LuaScript
  | MetaData
  | StructuralData
deriving DecidableEq, Repr

/-- The function `detectUsedType`. -/
def detectUsedType (dataName : String) : DataUsed :=
  if dataName = LuaScriptDataFileName then DataUsed.LuaScript
  else if dataName = MetaDataFileName then DataUsed.MetaData
  else if dataName = StructuralDataFileName then DataUsed.StructuralData
  else DataUsed.RawData

/-! ## The change handlers (synchronizer.go, lines 222-287) -/

/-- Go `error`: `none` is `nil`, `some msg` an error with that message. -/
abbrev error := Option String

/-- The functions of the package the handlers call and that are declared in
other files.  They act on a world `σ` (the store behind `s.dbManager` and the
file system) and return the new world and their `error`. -/
structure Bridge (σ : Type) where
  /-- The call `deleteFileByName(s.dbManager, bucketName, fileName)`. -/
  deleteFileByName : σ → String → String → σ × error
  /-- The call `ImportFsVirtualFile(s.dbManager, workSpacePath, bucketName, fileName)`. -/
  ImportFsVirtualFile : σ → String → String → String → σ × error
  /-- The call `ImportFsDataFile(s.dbManager, workSpacePath, bucketName, fileName, dataName)`. -/
  ImportFsDataFile : σ → String → String → String → String → σ × error

/-- The method `handleRemoveFile`.  The result is `none` when an index
expression `arr[i]` is out of range (a run-time panic), otherwise the world
after the call and the returned `error`.  Output to the console is left out. -/
def handleRemoveFile {σ : Type} (env : Bridge σ) (workSpacePath name : String) (w : σ) :
    Option (σ × error) :=
  let arr := SplitN name '/' 4
  if arr.length = 1 then some (w, some "Workspace deleted")
  else if arr.length = 2 then some (w, some "Bucket deleted")
  else if arr.length = 3 then do
    let bucketName ← arr[1]?
    let fileName ← arr[2]?
    let (w, err) := env.deleteFileByName w bucketName fileName
    if err ≠ none then some (w, err)
    else some (w, none)
  else if arr.length = 4 then do
    let bucketName ← arr[1]?
    let fileName ← arr[2]?
    let (w, err) := env.ImportFsVirtualFile w workSpacePath bucketName fileName
    if err ≠ none then some (w, err)
    else some (w, none)
  else some (w, none)

/-- The method `handleUpdateOrCreate` (its argument `oldname` is unused).
The error of `ImportFsDataFile` is printed and dropped. -/
def handleUpdateOrCreate {σ : Type} (env : Bridge σ) (workSpacePath name : String) (w : σ) :
    Option (σ × error) :=
  let arr := SplitN name '/' 4
  if arr.length = 2 then some (w, none)
  else if arr.length = 3 then some (w, none)
  else if arr.length = 4 then do
    let bucketName ← arr[1]?
    let fileName ← arr[2]?
    let dataName ← arr[3]?
    let (w, _) := env.ImportFsDataFile w workSpacePath bucketName fileName dataName
    some (w, none)
  else some (w, none)

/-! ## A bridge that records the calls made to it -/

/-- One call of a function of `Bridge`, with its string arguments. -/
inductive Call where
  | deleteFileByName (bucketName fileName : String)
  | ImportFsVirtualFile (workSpacePath bucketName fileName : String)
  | ImportFsDataFile (workSpacePath bucketName fileName dataName : String)
deriving DecidableEq, Repr

/-- The bridge whose world is the list of calls made so far and whose
functions all succeed. -/
def recorder : Bridge (List Call) where
  deleteFileByName w b f := (w ++ [Call.deleteFileByName b f], none)
  ImportFsVirtualFile w ws b f := (w ++ [Call.ImportFsVirtualFile ws b f], none)
  ImportFsDataFile w ws b f d := (w ++ [Call.ImportFsDataFile ws b f d], none)


/-! ## Sample records -/

/-- A file record of the given size. -/
def sampleFile (path : String) (size : Int) : fsItem :=
  ⟨path, size, ⟨1700000000, 0, none, "UTC"⟩, "", false⟩

/-- A directory record. -/
def sampleDir (path : String) : fsItem :=
  ⟨path, 4096, ⟨1700000000, 0, none, "UTC"⟩, "", true⟩

/-! ## Paths (library functions `filepath.Clean`, `filepath.Join`, `strings.TrimPrefix`) -/

/-- One step of Go `filepath.Clean`: empty and `.` elements are dropped, a
`..` element removes the element before it, stays when there is none to
remove in a relative path, and is dropped at the root. -/
def cleanStep (rooted : Bool) (stack : List (List Char)) (e : List Char) :
    List (List Char) :=
  if e = [] ∨ e = ['.'] then stack
  else if e = ['.', '.'] then
    match stack with
    | top :: below => if top = ['.', '.'] then e :: stack else below
    | [] => if rooted then [] else [e]
  else e :: stack

/-- Go `filepath.Clean` for paths separated by `/`. -/
def Clean (path : String) : String :=
  let cs := path.data
  let rooted := cs.head? == some '/'
  let elems := splitLoop '/' cs (cs.count '/')
  let stack := elems.foldl (cleanStep rooted) []
  let body := String.intercalate "/" (stack.reverse.map String.mk)
  let out := if rooted then "/" ++ body else body
  if out = "" then "." else out

/-- Go `filepath.Join`: the elements from the first non-empty one on, joined
by `/` and cleaned; the empty string when all are empty. -/
def Join (elem : List String) : String :=
  match elem.dropWhile (fun e => e == "") with
  | [] => ""
  | es => Clean (String.intercalate "/" es)

/-- Go `strings.TrimPrefix`. -/
def TrimPrefix (s pre : String) : String :=
  if pre.data.isPrefixOf s.data then String.mk (s.data.drop pre.data.length) else s

/-! ## The environment of the synchronizer -/

/-- What `os.FileInfo` gives the walk: size, modification time and directory
flag. -/
structure FileInfo where
  Size : Int
  ModTime : Time
  IsDir : Bool
deriving DecidableEq, Repr

/-- One call `walkFn(path, info, err)` that `filepath.Walk` makes. -/
structure Visit where
  path : String
  info : Option FileInfo
  err : error
deriving DecidableEq, Repr

/-- The operating system, the JSON library and the functions of the package
declared in other files, over a world `σ` that holds the file system and the
store behind `s.dbManager`.  A file handle is the path it was opened at. -/
structure Sys (σ : Type) extends Bridge σ where
  /-- The error of `os.Stat(path)`. -/
  Stat : σ → String → error
  /-- The test `os.IsNotExist(err)`. -/
  IsNotExist : error → Bool
  /-- The call `ioutil.ReadDir(path)`: the number of entries and the error. -/
  ReadDir : σ → String → Nat × error
  /-- The call `os.MkdirAll(path, FilesPermission)`. -/
  MkdirAll : σ → String → σ × error
  /-- The call `os.OpenFile(path, flag, FilesPermission)`; `write` stands for
  the flag `O_RDWR|O_CREATE|O_TRUNC`, its absence for `O_RDONLY`. -/
  OpenFile : σ → String → (write : Bool) → σ × error
  /-- The call `f.Close()`. -/
  Close : σ → String → σ × error
  /-- The call `json.NewDecoder(f).Decode(t)`: the map after decoding into it. -/
  jsonDecode : σ → String → tree → tree × error
  /-- The call `enc.Encode(t)` of a JSON encoder with indent set, writing to `f`. -/
  jsonEncode : σ → String → tree → σ × error
  /-- The calls `filepath.Walk(root, fn)` makes to a `fn` that returns `nil`
  every time, in order. -/
  walkVisits : σ → String → List Visit
  /-- The call `db.EachBucket(fn)` for a `fn` that returns `nil`: the names of
  the buckets passed to `fn` and the error. -/
  EachBucket : σ → List String × error
  /-- The call `Export(s.dbManager, workSpacePath)`. -/
  Export : σ → String → σ × error
  /-- The call `ImportWorkspace(s.dbManager, workSpacePath)`. -/
  ImportWorkspace : σ → String → σ × error

/-- The fields of the struct `Synchronizer` the methods read and write; the
store `dbManager` is part of the world, `pollFreq` only sets the period of
the ticker, and the mutex `initMu` is not modelled (calls are sequential). -/
structure Synchronizer where
  inited : Bool
  workSpacePath : String
  tree : tree
deriving DecidableEq, Repr

/-- The function `NewSynchronizer`. -/
def NewSynchronizer (workSpacePath : String) : Synchronizer × error :=
  (⟨false, workSpacePath, []⟩, none)

/-! ## Building and storing a snapshot (synchronizer.go, lines 305-360) -/

/-- Go `filepath.Walk`: every error met on the way is passed to `fn`, and the
walk ends with the first error `fn` returns, which is the result. -/
def Walk {α : Type} (fn : α → Visit → α × error) : List Visit → α → α × error
  | [], a => (a, none)
  | v :: vs, a =>
    match fn a v with
    | (a, some err) => (a, some err)
    | (a, none) => Walk fn vs a

/-- The map assignment `t[path] = item`. -/
def tree.set (t : tree) (path : String) (item : fsItem) : tree :=
  if t.keys.contains path then t.map (fun e => if e.1 = path then (path, item) else e)
  else t ++ [(path, item)]

/-- The closure `walcFunc` of `newTreeFromFs` (lines 307-325). -/
def walcFunc (root : String) (t : tree) (v : Visit) : tree × error :=
  match v.err, v.info with
  | some _, _ => (t, none)
  | none, none => (t, none)
  | none, some info =>
    let path := TrimPrefix v.path (Join [root, "/"])
    if path = "" then (t, none)
    else
      let item : fsItem :=
        { Path := path, Size := info.Size, ModTime := info.ModTime, Hash := "",
          IsDir := info.IsDir }
      (t.set path item, none)

/-- The function `newTreeFromFs`. -/
def newTreeFromFs {σ : Type} (env : Sys σ) (w : σ) (root : String) : tree × error :=
  let t : tree := []
  Walk (walcFunc root) (env.walkVisits w root) t

/-- The method `tree.Encode`. -/
def Encode {σ : Type} (env : Sys σ) (w : σ) (writer : String) (t : tree) : σ × error :=
  env.jsonEncode w writer t

/-- The method `tree.Decode`: `dec.Decode(t)` fills the map `t` points to; the
copy `tt` and the assignment `t = &tt` to the local pointer change nothing
the caller sees. -/
def Decode {σ : Type} (env : Sys σ) (w : σ) (reader : String) (t : tree) : tree × error :=
  env.jsonDecode w reader t

/-- The method `tree.EncodeToFile`. -/
def EncodeToFile {σ : Type} (env : Sys σ) (w : σ) (t : tree) (path : String) : σ × error :=
  match env.OpenFile w path true with
  | (w, some err) => (w, some err)
  | (w, none) =>
    match Encode env w path t with
    | (w, some err) => (w, some err)
    | (w, none) =>
      match env.Close w path with
      | (w, some err) => (w, some err)
      | (w, none) => (w, none)

/-! ## `dbHasData` (utils.go, lines 110-117) -/

/-- The function `dbHasData`: the callback counts the buckets. -/
def dbHasData {σ : Type} (env : Sys σ) (w : σ) : Bool × error :=
  let cnt : Nat := 0
  let (buckets, err) := env.EachBucket w
  let cnt := buckets.foldl (fun cnt _ => cnt + 1) cnt
  (cnt != 0, err)

/-! ## `Synchronizer.Init` (synchronizer.go, lines 59-145) -/

/-- Lines 73-86 of `Init`: the flag `workSpaceHasData`, the world and the
error `Init` returns at once when it is not `nil`. -/
def scanWorkspace {σ : Type} (env : Sys σ) (s : Synchronizer) (w : σ) : Bool × σ × error :=
  match env.Stat w s.workSpacePath with
  | none =>
    match env.ReadDir w s.workSpacePath with
    | (_, some err) => (false, w, some err)
    | (n, none) => (decide (n > 0), w, none)
  | some err =>
    if env.IsNotExist (some err) then
      match env.MkdirAll w s.workSpacePath with
      | (w, some err) => (false, w, some err)
      | (w, none) => (false, w, none)
    else (false, w, none)

/-- Lines 88-116 of `Init`: the snapshot is decoded from the index file when
`os.Stat` finds it, and built from the file system and written to the index
file otherwise. -/
def loadTree {σ : Type} (env : Sys σ) (s : Synchronizer) (w : σ) : Synchronizer × σ × error :=
  let workSpaceHasSyncInfoFile : Bool :=
    decide (env.Stat w (Join [s.workSpacePath, SyncInfoFileName]) = none)
  let treePath := Join [s.workSpacePath, SyncInfoFileName]
  if workSpaceHasSyncInfoFile then
    let s := { s with tree := [] }
    match env.OpenFile w treePath false with
    | (w, some err) => (s, w, some err)
    | (w, none) =>
      match Decode env w treePath s.tree with
      | (t, some err) => ({ s with tree := t }, w, some err)
      | (t, none) =>
        let s := { s with tree := t }
        match env.Close w treePath with
        | (w, some err) => (s, w, some err)
        | (w, none) => (s, w, none)
  else
    match newTreeFromFs env w s.workSpacePath with
    | (t, some err) => ({ s with tree := t }, w, some err)
    | (t, none) =>
      let s := { s with tree := t }
      match EncodeToFile env w s.tree treePath with
      | (w, some err) => (s, w, some err)
      | (w, none) => (s, w, none)

/-- Lines 118-144 of `Init`, after `workSpaceHasData` is known and the
snapshot is loaded. -/
def reconcile {σ : Type} (env : Sys σ) (s : Synchronizer) (workSpaceHasData : Bool) (w : σ) :
    Synchronizer × σ × error :=
  match dbHasData env w with
  | (_, some err) => (s, w, some err)
  | (dbHasBuckets, none) =>
    if !dbHasBuckets && !workSpaceHasData then (s, w, none)
    else if dbHasBuckets && !workSpaceHasData then
      match env.Export w s.workSpacePath with
      | (w, some err) => (s, w, some err)
      | (w, none) => ({ s with inited := true }, w, none)
    else
      match env.ImportWorkspace w s.workSpacePath with
      | (w, some err) => (s, w, some err)
      | (w, none) => ({ s with inited := true }, w, none)

/-- The method `Init`: the synchronizer and the world after the call, and the
returned error. -/
def Init {σ : Type} (env : Sys σ) (s : Synchronizer) (w : σ) : Synchronizer × σ × error :=
  if s.inited then (s, w, none)
  else
    match scanWorkspace env s w with
    | (_, w, some err) => (s, w, some err)
    | (workSpaceHasData, w, none) =>
      match loadTree env s w with
      | (s, w, some err) => (s, w, some err)
      | (s, w, none) => reconcile env s workSpaceHasData w

/-! ## One tick of the loop of `Synchronizer.Watch` (synchronizer.go, lines 186-217) -/

/-- The `switch` of lines 196-209 for one op: the handler is called with the
joined path.  Its error is printed; the `break` after it leaves the `switch`
only, so the result for the loop over the ops is the world (or `none` when
the handler panics). -/
def dispatchOp {σ : Type} (env : Sys σ) (s : Synchronizer) (op : Op) (w : σ) :
    Option (σ × error) :=
  if op.Op = change ∨ op.Op = create ∨ op.Op = mkDir then
    handleUpdateOrCreate env.toBridge s.workSpacePath (Join [s.workSpacePath, op.Path]) w
  else if op.Op = unlink ∨ op.Op = rmDir then
    handleRemoveFile env.toBridge s.workSpacePath (Join [s.workSpacePath, op.Path]) w
  else some (w, none)

/-- The loop `for _, op := range changes` of lines 194-210. -/
def runOps {σ : Type} (env : Sys σ) (s : Synchronizer) : List Op → σ → Option σ
  | [], w => some w
  | op :: rest, w =>
    match dispatchOp env s op w with
    | none => none
    | some (w, _) => runOps env s rest w

/-- The body of the loop `for range interval.C`: the synchronizer and the
world after the tick, and whether the loop goes on (`false` after the `break`
of line 191).  The result is `none` when a handler panics. -/
def tick {σ : Type} (env : Sys σ) (s : Synchronizer) (w : σ) :
    Option (Synchronizer × σ × Bool) :=
  match newTreeFromFs env w s.workSpacePath with
  | (_, some _) => some (s, w, false)
  | (current, none) =>
    let changes := Calculate s.tree current
    match runOps env s changes w with
    | none => none
    | some w =>
      if changes.length ≠ 0 then
        let treePath := Join [s.workSpacePath, SyncInfoFileName]
        let (w, _) := EncodeToFile env w current treePath
        some ({ s with tree := current }, w, true)
      else some (s, w, true)

/-! ## A small world to run the synchronizer in -/

/-- A workspace directory and a store: whether the directory exists, the
names of its entries, the snapshot held by its index file, the buckets of the
store, and the names of the calls that changed something. -/
structure SimWorld where
  wsExists : Bool
  entries : List String
  index : tree
  buckets : List String
  calls : List String
  storeCalls : List Call
deriving DecidableEq, Repr

/-- The environment over `SimWorld` for the workspace `ws`: every call
succeeds; opening the index file for writing creates it, export puts one
entry per bucket into the workspace and import one bucket per entry other
than the index file into the store. -/
def simSys (ws : String) : Sys SimWorld where
  deleteFileByName w b f :=
    ({ w with storeCalls := w.storeCalls ++ [Call.deleteFileByName b f] }, none)
  ImportFsVirtualFile w p b f :=
    ({ w with storeCalls := w.storeCalls ++ [Call.ImportFsVirtualFile p b f] }, none)
  ImportFsDataFile w p b f d :=
    ({ w with storeCalls := w.storeCalls ++ [Call.ImportFsDataFile p b f d] }, none)
  Stat w p :=
    if p = ws then (if w.wsExists then none else some "no such file or directory")
    else if p = Join [ws, SyncInfoFileName] ∧ w.wsExists ∧ SyncInfoFileName ∈ w.entries
    then none
    else some "no such file or directory"
  IsNotExist err := err == some "no such file or directory"
  ReadDir w _ := (w.entries.length, none)
  MkdirAll w _ := ({ w with wsExists := true, calls := w.calls ++ ["MkdirAll"] }, none)
  OpenFile w _ write :=
    if write then
      ({ w with
          entries :=
            if SyncInfoFileName ∈ w.entries then w.entries
            else w.entries ++ [SyncInfoFileName],
          index := [],
          calls := w.calls ++ ["OpenFile for writing"] }, none)
    else (w, none)
  Close w _ := (w, none)
  jsonDecode w _ t := (w.index.foldl (fun t e => t.set e.1 e.2) t, none)
  jsonEncode w _ t := ({ w with index := t, calls := w.calls ++ ["Encode"] }, none)
  walkVisits w root :=
    if w.wsExists then
      ⟨root, some ⟨4096, Time.zero, true⟩, none⟩ ::
        w.entries.map (fun n => ⟨Join [root, n], some ⟨0, Time.zero, false⟩, none⟩)
    else [⟨root, none, some "no such file or directory"⟩]
  EachBucket w := (w.buckets, none)
  Export w _ :=
    ({ w with entries := w.entries ++ w.buckets, calls := w.calls ++ ["Export"] }, none)
  ImportWorkspace w _ :=
    ({ w with
        buckets := w.buckets ++ w.entries.filter (fun n => n != SyncInfoFileName),
        calls := w.calls ++ ["ImportWorkspace"] }, none)

/-- The world with no workspace directory content and an empty store. -/
def emptyWorld : SimWorld := ⟨true, [], [], [], [], []⟩

/-! ## Map reads -/

theorem lookup_eq_none_of_not_mem_keys (t : tree) (q : String) (h : q ∉ t.keys) :
    t.lookup q = none := by
  induction t with
  | nil => rfl
  | cons e t ih =>
    obtain ⟨k, v⟩ := e
    simp only [tree.keys, List.map_cons, List.mem_cons, not_or] at h
    have hk : (q == k) = false := by simpa using h.1
    rw [List.lookup_cons, hk]
    exact ih h.2

theorem mem_of_lookup_eq_some (t : tree) (q : String) (v : fsItem)
    (h : t.lookup q = some v) : (q, v) ∈ t := by
  induction t with
  | nil => simp at h
  | cons e t ih =>
    obtain ⟨k, w⟩ := e
    rw [List.lookup_cons] at h
    by_cases hk : q = k
    · subst hk
      simp at h
      subst h
      exact List.mem_cons_self _ _
    · have hk2 : (q == k) = false := by simpa using hk
      rw [hk2] at h
      exact List.mem_cons_of_mem _ (ih h)

theorem mem_keys_of_mem (t : tree) (q : String) (v : fsItem) (h : (q, v) ∈ t) :
    q ∈ t.keys :=
  List.mem_map.mpr ⟨(q, v), h, rfl⟩

theorem lookup_eq_some_of_mem (t : tree) (hwf : t.WF) (q : String) (v : fsItem)
    (h : (q, v) ∈ t) : t.lookup q = some v := by
  induction t with
  | nil => simp at h
  | cons e t ih =>
    obtain ⟨k, w⟩ := e
    have hwf2 : k ∉ tree.keys t ∧ tree.WF t := by
      simpa [tree.WF, tree.keys] using hwf
    rw [List.lookup_cons]
    rcases List.mem_cons.mp h with heq | hmem
    · have h1 : q = k := congrArg Prod.fst heq
      have h2 : v = w := congrArg Prod.snd heq
      subst h1 h2
      simp
    · have hk : q ≠ k := by
        intro hqk
        subst hqk
        exact hwf2.1 (mem_keys_of_mem t q v hmem)
      have hk2 : (q == k) = false := by simpa using hk
      rw [hk2]
      exact ih hwf2.2 hmem

theorem lookup_isSome_of_mem_keys (t : tree) (q : String) (h : q ∈ t.keys) :
    ∃ v, t.lookup q = some v := by
  cases hl : t.lookup q with
  | some v => exact ⟨v, rfl⟩
  | none =>
    exfalso
    obtain ⟨e, he, hq⟩ := List.mem_map.mp h
    induction t with
    | nil => simp at he
    | cons a t ih =>
      obtain ⟨k, w⟩ := a
      rw [List.lookup_cons] at hl
      by_cases hk : q = k
      · simp [hk] at hl
      · have hk2 : (q == k) = false := by simpa using hk
        rw [hk2] at hl
        rcases List.mem_cons.mp he with heq | hmem
        · subst heq
          exact hk hq.symm
        · exact ih (List.mem_map.mpr ⟨e, hmem, hq⟩) hl hmem

theorem WF_of_perm {t u : tree} (hp : t.Perm u) (hwf : t.WF) : u.WF :=
  (List.Perm.nodup_iff (hp.map Prod.fst)).mp hwf

theorem mem_keys_of_perm {t u : tree} (hp : t.Perm u) (q : String) :
    q ∈ t.keys ↔ q ∈ u.keys :=
  (hp.map Prod.fst).mem_iff

/-- Two enumeration orders of one map give the same map reads. -/
theorem lookup_perm {t u : tree} (hp : t.Perm u) (hwf : t.WF) (q : String) :
    t.lookup q = u.lookup q := by
  cases hl : t.lookup q with
  | none =>
    by_cases hq : q ∈ u.keys
    · obtain ⟨v, hv⟩ := lookup_isSome_of_mem_keys t q ((mem_keys_of_perm hp q).mpr hq)
      rw [hv] at hl
      exact absurd hl (by simp)
    · exact (lookup_eq_none_of_not_mem_keys u q hq).symm
  | some v =>
    have hm : (q, v) ∈ u := hp.mem_iff.mp (mem_of_lookup_eq_some t q v hl)
    exact (lookup_eq_some_of_mem u (WF_of_perm hp hwf) q v hm).symm

theorem get_perm {t u : tree} (hp : t.Perm u) (hwf : t.WF) (q : String) :
    t.get q = u.get q := by
  unfold tree.get
  rw [lookup_perm hp hwf q]

theorem get_of_not_mem_keys (t : tree) (q : String) (h : q ∉ t.keys) :
    t.get q = (fsItem.zero, false) := by
  unfold tree.get
  rw [lookup_eq_none_of_not_mem_keys t q h]

theorem get_of_lookup (t : tree) (q : String) (v : fsItem) (h : t.lookup q = some v) :
    t.get q = (v, true) := by
  unfold tree.get
  rw [h]

theorem get_snd_of_mem_keys (t : tree) (q : String) (h : q ∈ t.keys) :
    (t.get q).2 = true := by
  obtain ⟨v, hv⟩ := lookup_isSome_of_mem_keys t q h
  rw [get_of_lookup t q v hv]

theorem Time.Equal_self (t : Time) : t.Equal t = true := by
  unfold Time.Equal
  cases h : t.mono <;> simp


/-! ## The two loops of `Calculate` as concatenations -/

theorem checkNew_append (prev : tree) (u : List Op) (e : String × fsItem) :
    checkNew prev u e = u ++ checkNew prev [] e := by
  unfold checkNew
  simp only []
  split
  · simp
  · split
    · split <;> simp
    · split <;> simp

theorem checkDeletes_append (current : tree) (u : List Op) (e : String × fsItem) :
    checkDeletes current u e = u ++ checkDeletes current [] e := by
  unfold checkDeletes
  simp only []
  split
  · split <;> simp
  · simp

theorem foldl_checkNew (prev : tree) (l : tree) (u : List Op) :
    l.foldl (checkNew prev) u = u ++ l.flatMap (checkNew prev []) := by
  induction l generalizing u with
  | nil => simp
  | cons e l ih =>
    rw [List.foldl_cons, ih, checkNew_append, List.flatMap_cons, List.append_assoc]

theorem foldl_checkDeletes (current : tree) (l : tree) (u : List Op) :
    l.foldl (checkDeletes current) u = u ++ l.flatMap (checkDeletes current []) := by
  induction l generalizing u with
  | nil => simp
  | cons e l ih =>
    rw [List.foldl_cons, ih, checkDeletes_append, List.flatMap_cons, List.append_assoc]

theorem Calculate_eq (prev current : tree) :
    Calculate prev current =
      current.flatMap (checkNew prev []) ++ prev.flatMap (checkDeletes current []) := by
  unfold Calculate
  simp only []
  rw [foldl_checkNew, foldl_checkDeletes, List.nil_append]

/-! ## What one iteration appends -/

theorem checkNew_suffix (prev : tree) (e : String × fsItem)
    (h : HasSuffix e.1 SyncInfoFileName = true) : checkNew prev [] e = [] := by
  unfold checkNew
  simp [h]

theorem checkNew_absent (prev : tree) (e : String × fsItem)
    (hs : HasSuffix e.1 SyncInfoFileName = false) (h : e.1 ∉ prev.keys) :
    checkNew prev [] e = [⟨e.1, create⟩] := by
  unfold checkNew
  simp [hs, get_of_not_mem_keys prev e.1 h, fsItem.zero]

theorem checkNew_present (prev : tree) (e : String × fsItem) (r : fsItem)
    (hs : HasSuffix e.1 SyncInfoFileName = false) (h : prev.lookup e.1 = some r) :
    checkNew prev [] e =
      if (!e.2.IsDir && (!e.2.ModTime.Equal r.ModTime || e.2.Size != r.Size)) = true
      then [⟨e.1, change⟩] else [] := by
  unfold checkNew
  simp [hs, get_of_lookup prev e.1 r h]

theorem checkDeletes_absent (current : tree) (e : String × fsItem)
    (h : e.1 ∉ current.keys) :
    checkDeletes current [] e = [⟨e.1, if e.2.IsDir = true then rmDir else unlink⟩] := by
  unfold checkDeletes
  simp only [get_of_not_mem_keys current e.1 h]
  cases e.2.IsDir <;> simp

theorem checkDeletes_present (current : tree) (e : String × fsItem)
    (h : e.1 ∈ current.keys) : checkDeletes current [] e = [] := by
  have hh := get_snd_of_mem_keys current e.1 h
  unfold checkDeletes
  simp only []
  generalize current.get e.1 = g at hh
  obtain ⟨a, b⟩ := g
  simp only at hh
  simp [hh]

/-- The ops of the first loop never carry a delete kind, and their path is the
key of the entry. -/
theorem checkNew_mem (prev : tree) (e : String × fsItem) (op : Op)
    (h : op ∈ checkNew prev [] e) :
    op.Path = e.1 ∧ (op.Op = create ∨ op.Op = mkDir ∨ op.Op = change) ∧
      HasSuffix e.1 SyncInfoFileName = false := by
  cases hs : HasSuffix e.1 SyncInfoFileName with
  | true => rw [checkNew_suffix prev e hs] at h; simp at h
  | false =>
    unfold checkNew at h
    simp only [hs] at h
    generalize prev.get e.1 = g at h
    obtain ⟨a, b⟩ := g
    simp only [Bool.false_eq_true, if_false, List.nil_append] at h
    split_ifs at h <;> simp at h <;> subst h <;> simp

theorem flatMap_eq_nil_of_forall {α β : Type} (l : List α) (f : α → List β)
    (h : ∀ a ∈ l, f a = []) : l.flatMap f = [] := by
  induction l with
  | nil => rfl
  | cons a l ih =>
    rw [List.flatMap_cons, h a (List.mem_cons_self _ _),
      ih (fun b hb => h b (List.mem_cons_of_mem _ hb))]
    rfl

/-- Both arguments of `Calculate` may be enumerated in another order: the ops
are the same up to their order. -/
theorem Calculate_perm_of_perm {prev prev2 current current2 : tree}
    (hprev : prev.WF) (hcur : current.WF)
    (hp : prev.Perm prev2) (hc : current.Perm current2) :
    (Calculate prev current).Perm (Calculate prev2 current2) := by
  rw [Calculate_eq, Calculate_eq]
  have h1 : checkNew prev [] = checkNew prev2 [] := by
    funext e
    simp only [checkNew, get_perm hp hprev e.1]
  have h2 : checkDeletes current [] = checkDeletes current2 [] := by
    funext e
    simp only [checkDeletes, get_perm hc hcur e.1]
  rw [h1, h2]
  exact List.Perm.append (List.Perm.flatMap_right _ hc) (List.Perm.flatMap_right _ hp)


theorem checkDeletes_mem (current : tree) (e : String × fsItem) (op : Op)
    (h : op ∈ checkDeletes current [] e) :
    e.1 ∉ current.keys ∧ op = ⟨e.1, if e.2.IsDir = true then rmDir else unlink⟩ := by
  by_cases hk : e.1 ∈ current.keys
  · rw [checkDeletes_present current e hk] at h
    simp at h
  · rw [checkDeletes_absent current e hk] at h
    exact ⟨hk, List.mem_singleton.mp h⟩

/-- An entry that both maps hold unchanged appends nothing in the first loop. -/
theorem checkNew_same (prev : tree) (e : String × fsItem)
    (h : prev.lookup e.1 = some e.2) : checkNew prev [] e = [] := by
  cases hs : HasSuffix e.1 SyncInfoFileName with
  | true => exact checkNew_suffix prev e hs
  | false =>
    rw [checkNew_present prev e e.2 hs h]
    simp [Time.Equal_self]

theorem flatMap_checkNew_self (S : tree) (prev : tree)
    (h : ∀ e ∈ S, prev.lookup e.1 = some e.2) : S.flatMap (checkNew prev []) = [] :=
  flatMap_eq_nil_of_forall S _ (fun e he => checkNew_same prev e (h e he))

theorem flatMap_checkDeletes_sub (prev current : tree)
    (h : ∀ e ∈ prev, e.1 ∈ current.keys) : prev.flatMap (checkDeletes current []) = [] :=
  flatMap_eq_nil_of_forall prev _ (fun e he => checkDeletes_present current e (h e he))

theorem Calculate_same (S : tree) (hwf : S.WF) : Calculate S S = [] := by
  rw [Calculate_eq]
  rw [flatMap_checkNew_self S S (fun e he => lookup_eq_some_of_mem S hwf e.1 e.2 he)]
  rw [flatMap_checkDeletes_sub S S (fun e he => mem_keys_of_mem S e.1 e.2 he)]
  rfl

theorem WF_cons {p : String} {r : fsItem} {t : tree} (h : tree.WF ((p, r) :: t)) :
    p ∉ t.keys ∧ t.WF := by
  simpa [tree.WF, tree.keys] using h

theorem WF_cons_of {p : String} {r : fsItem} {t : tree} (hp : p ∉ t.keys) (h : t.WF) :
    tree.WF ((p, r) :: t) := by
  simpa [tree.WF, tree.keys] using And.intro hp h

theorem lookup_cons_self (p : String) (r : fsItem) (t : tree) :
    List.lookup p ((p, r) :: t) = some r := by
  rw [List.lookup_cons]
  simp

/-- The diff of a map against the same map with one more entry. -/
theorem Calculate_cons_new (S : tree) (p : String) (item : fsItem)
    (hwf : S.WF) (hp : p ∉ S.keys) (hs : HasSuffix p SyncInfoFileName = false) :
    Calculate S ((p, item) :: S) = [⟨p, create⟩] := by
  rw [Calculate_eq, List.flatMap_cons]
  rw [checkNew_absent S (p, item) hs hp]
  rw [flatMap_checkNew_self S S (fun e he => lookup_eq_some_of_mem S hwf e.1 e.2 he)]
  rw [flatMap_checkDeletes_sub S ((p, item) :: S)
    (fun e he => mem_keys_of_mem _ e.1 e.2 (List.mem_cons_of_mem _ he))]
  rfl

/-- The diff of two maps that differ in the size of one entry only. -/
theorem Calculate_cons_size (rest : tree) (p : String) (r : fsItem) (n : Int)
    (hwf : tree.WF ((p, r) :: rest)) (hd : r.IsDir = false) (hn : n ≠ r.Size)
    (hs : HasSuffix p SyncInfoFileName = false) :
    Calculate ((p, r) :: rest) ((p, { r with Size := n }) :: rest) = [⟨p, change⟩] := by
  rw [Calculate_eq, List.flatMap_cons]
  rw [checkNew_present ((p, r) :: rest) (p, { r with Size := n }) r hs
    (lookup_cons_self p r rest)]
  rw [flatMap_checkNew_self rest ((p, r) :: rest)
    (fun e he => lookup_eq_some_of_mem _ hwf e.1 e.2 (List.mem_cons_of_mem _ he))]
  rw [flatMap_checkDeletes_sub ((p, r) :: rest) ((p, { r with Size := n }) :: rest)]
  · simp [hd, hn, Time.Equal_self]
  · intro e he
    rcases List.mem_cons.mp he with heq | hmem
    · subst heq
      simp [tree.keys]
    · exact mem_keys_of_mem _ e.1 e.2 (List.mem_cons_of_mem _ hmem)

/-! ## The diff: claims -/

/-- C1: diffing a snapshot against itself gives no change op, in whatever
order the two loops enumerate the map. -/
theorem Calculate_self_nil (S S2 : tree) (hwf : S.WF) (hp : S.Perm S2) :
    Calculate S S2 = [] := by
  have h := Calculate_perm_of_perm hwf hwf (List.Perm.refl S) hp
  rw [Calculate_same S hwf] at h
  exact List.perm_nil.mp h.symm

theorem Calculate_self_nil_witness :
    tree.WF [("/b1", sampleDir "/b1"), ("/b1/f1", sampleFile "/b1/f1" 7)] ∧
    Calculate [("/b1", sampleDir "/b1"), ("/b1/f1", sampleFile "/b1/f1" 7)]
      [("/b1/f1", sampleFile "/b1/f1" 7), ("/b1", sampleDir "/b1")] = [] :=
  ⟨by decide, Calculate_self_nil _ _ (by decide) (List.Perm.swap _ _ _)⟩

/-- C2, as stated, fails: adding the file `/.fader_index` to the empty
snapshot gives no op at all. -/
theorem Calculate_add_file_counterexample :
    tree.WF [] ∧ "/.fader_index" ∉ tree.keys [] ∧
    (sampleFile "/.fader_index" 7).IsDir = false ∧
    Calculate [] [("/.fader_index", sampleFile "/.fader_index" 7)] = [] ∧
    Calculate [] [("/.fader_index", sampleFile "/.fader_index" 7)] ≠
      [⟨"/.fader_index", create⟩] := by
  decide

/-- C2 (amended): when `S2` is `S` with one more record, not a directory, at
a path `p` that `S` does not hold and that does not end in `.fader_index`,
the diff of `S` and `S2` is the single op `create p`. -/
theorem Calculate_add_file (S S2 : tree) (p : String) (item : fsItem)
    (hwf : S.WF) (hp : p ∉ S.keys) (_hd : item.IsDir = false)
    (hs : HasSuffix p SyncInfoFileName = false)
    (h2 : S2.Perm ((p, item) :: S)) :
    Calculate S S2 = [⟨p, create⟩] := by
  have hwf2 : tree.WF ((p, item) :: S) := WF_cons_of hp hwf
  have h := Calculate_perm_of_perm hwf hwf2 (List.Perm.refl S) h2.symm
  rw [Calculate_cons_new S p item hwf hp hs] at h
  exact List.perm_singleton.mp h.symm

theorem Calculate_add_file_witness :
    Calculate [("/b1", sampleDir "/b1")]
      [("/b1", sampleDir "/b1"), ("/b1/f1", sampleFile "/b1/f1" 7)] =
      [⟨"/b1/f1", create⟩] :=
  Calculate_add_file _ _ "/b1/f1" (sampleFile "/b1/f1" 7) (by decide) (by decide)
    (by decide) (by decide) (List.Perm.swap _ _ _)

/-- C3, as stated, fails: the path `/.fader_index` is in `current` and not in
`prev`, and the diff holds no op for it. -/
theorem Calculate_new_path_counterexample :
    List.lookup "/.fader_index" [("/.fader_index", sampleFile "/.fader_index" 7)] =
      some (sampleFile "/.fader_index" 7) ∧
    "/.fader_index" ∉ tree.keys [] ∧
    ∀ op ∈ Calculate [] [("/.fader_index", sampleFile "/.fader_index" 7)],
      op.Path ≠ "/.fader_index" := by
  decide

/-- C3 (amended): for a path `p` that `current` holds and `prev` does not,
that does not end in `.fader_index` and whose record in `current` is not a
directory, the diff holds the op `create p`. -/
theorem Calculate_new_file_create (prev current : tree) (p : String) (item : fsItem)
    (hcur : current.lookup p = some item) (habs : p ∉ prev.keys)
    (hs : HasSuffix p SyncInfoFileName = false) (_hd : item.IsDir = false) :
    (⟨p, create⟩ : Op) ∈ Calculate prev current := by
  rw [Calculate_eq]
  apply List.mem_append_left
  rw [List.mem_flatMap]
  refine ⟨(p, item), mem_of_lookup_eq_some current p item hcur, ?_⟩
  rw [checkNew_absent prev (p, item) hs habs]
  exact List.mem_singleton.mpr rfl

theorem Calculate_new_file_create_witness :
    (⟨"/b1/f1", create⟩ : Op) ∈
      Calculate [("/b1", sampleDir "/b1")]
        [("/b1/f1", sampleFile "/b1/f1" 7), ("/b1", sampleDir "/b1")] :=
  Calculate_new_file_create _ _ "/b1/f1" (sampleFile "/b1/f1" 7) (by decide) (by decide)
    (by decide) (by decide)

/-- The first loop tests the directory flag of the missing previous record:
a new directory gets the op `create`, not `mkDir`. -/
theorem Calculate_new_dir_create :
    Calculate [] [("/b1", sampleDir "/b1")] = [⟨"/b1", create⟩] := by
  decide


/-- C4: the diff holds a delete op for `p` exactly when `prev` holds `p` and
`current` does not; that op is `rmDir` when the record of `prev` at `p` is a
directory and `unlink` otherwise, and no other delete op for `p` is there. -/
theorem Calculate_delete_iff (prev current : tree) (hwf : prev.WF) (p : String) :
    ((∃ op ∈ Calculate prev current, op.Path = p ∧ (op.Op = unlink ∨ op.Op = rmDir)) ↔
      (p ∈ prev.keys ∧ p ∉ current.keys)) ∧
    (∀ r : fsItem, prev.lookup p = some r → p ∉ current.keys →
      (⟨p, if r.IsDir = true then rmDir else unlink⟩ : Op) ∈ Calculate prev current ∧
      ∀ op ∈ Calculate prev current, op.Path = p → (op.Op = unlink ∨ op.Op = rmDir) →
        op.Op = if r.IsDir = true then rmDir else unlink) := by
  have hdel : ∀ op ∈ Calculate prev current, (op.Op = unlink ∨ op.Op = rmDir) →
      ∃ e ∈ prev, e.1 ∉ current.keys ∧
        op = ⟨e.1, if e.2.IsDir = true then rmDir else unlink⟩ := by
    intro op hop hk
    rw [Calculate_eq, List.mem_append] at hop
    rcases hop with h1 | h2
    · obtain ⟨e, _, he⟩ := List.mem_flatMap.mp h1
      have hn := (checkNew_mem prev e op he).2.1
      exfalso
      rcases hk with hk | hk <;> rcases hn with hn | hn | hn <;>
        (rw [hk] at hn; revert hn; decide)
    · obtain ⟨e, hmem, he⟩ := List.mem_flatMap.mp h2
      exact ⟨e, hmem, checkDeletes_mem current e op he⟩
  have hins : ∀ r : fsItem, (p, r) ∈ prev → p ∉ current.keys →
      (⟨p, if r.IsDir = true then rmDir else unlink⟩ : Op) ∈ Calculate prev current := by
    intro r hr hc
    rw [Calculate_eq]
    apply List.mem_append_right
    rw [List.mem_flatMap]
    refine ⟨(p, r), hr, ?_⟩
    rw [checkDeletes_absent current (p, r) hc]
    exact List.mem_singleton.mpr rfl
  refine ⟨⟨?_, ?_⟩, ?_⟩
  · rintro ⟨op, hop, hpath, hk⟩
    obtain ⟨e, hmem, habs, heq⟩ := hdel op hop hk
    have : e.1 = p := by rw [← hpath, heq]
    rw [← this]
    exact ⟨mem_keys_of_mem prev e.1 e.2 hmem, habs⟩
  · rintro ⟨hprev, hcur⟩
    obtain ⟨r, hr⟩ := lookup_isSome_of_mem_keys prev p hprev
    refine ⟨_, hins r (mem_of_lookup_eq_some prev p r hr) hcur, rfl, ?_⟩
    cases r.IsDir <;> simp
  · intro r hr hcur
    refine ⟨hins r (mem_of_lookup_eq_some prev p r hr) hcur, ?_⟩
    intro op hop hpath hk
    obtain ⟨e, hmem, _, heq⟩ := hdel op hop hk
    have hp : e.1 = p := by rw [← hpath, heq]
    have hl := lookup_eq_some_of_mem prev hwf e.1 e.2 hmem
    rw [hp, hr] at hl
    have hr2 : r = e.2 := Option.some.inj hl
    rw [heq, hr2]

theorem Calculate_delete_iff_witness :
    (⟨"/b1", rmDir⟩ : Op) ∈
      Calculate [("/b1", sampleDir "/b1"), ("/b1/f1", sampleFile "/b1/f1" 7)]
        [("/b2", sampleDir "/b2")] :=
  ((Calculate_delete_iff [("/b1", sampleDir "/b1"), ("/b1/f1", sampleFile "/b1/f1" 7)]
    [("/b2", sampleDir "/b2")] (by decide) "/b1").2 (sampleDir "/b1") (by decide)
    (by decide)).1

/-- C5, as stated, fails: when only the size of the file `/.fader_index`
changes, the diff is empty. -/
theorem Calculate_size_change_counterexample :
    List.lookup "/.fader_index" [("/.fader_index", sampleFile "/.fader_index" 7)] =
      some (sampleFile "/.fader_index" 7) ∧
    (sampleFile "/.fader_index" 7).IsDir = false ∧
    sampleFile "/.fader_index" 9 = { sampleFile "/.fader_index" 7 with Size := 9 } ∧
    Calculate [("/.fader_index", sampleFile "/.fader_index" 7)]
      [("/.fader_index", sampleFile "/.fader_index" 9)] = [] ∧
    Calculate [("/.fader_index", sampleFile "/.fader_index" 7)]
      [("/.fader_index", sampleFile "/.fader_index" 9)] ≠ [⟨"/.fader_index", change⟩] := by
  decide

/-- C5 (amended): when `S` holds at `p` a record `r` that is not a directory,
`p` does not end in `.fader_index`, and `S2` is `S` except that the record at
`p` has another size, the diff of `S` and `S2` is the single op `change p`. -/
theorem Calculate_size_change (rest S S2 : tree) (p : String) (r : fsItem) (n : Int)
    (hS : S.Perm ((p, r) :: rest)) (hS2 : S2.Perm ((p, { r with Size := n }) :: rest))
    (hwf : S.WF) (hd : r.IsDir = false) (hn : n ≠ r.Size)
    (hs : HasSuffix p SyncInfoFileName = false) :
    Calculate S S2 = [⟨p, change⟩] := by
  have hwf1 : tree.WF ((p, r) :: rest) := WF_of_perm hS hwf
  have hwf2 : tree.WF ((p, { r with Size := n }) :: rest) :=
    WF_cons_of (WF_cons hwf1).1 (WF_cons hwf1).2
  have h := Calculate_perm_of_perm hwf1 hwf2 hS.symm hS2.symm
  rw [Calculate_cons_size rest p r n hwf1 hd hn hs] at h
  exact List.perm_singleton.mp h.symm

theorem Calculate_size_change_witness :
    Calculate [("/b1", sampleDir "/b1"), ("/b1/f1", sampleFile "/b1/f1" 7)]
      [("/b1", sampleDir "/b1"), ("/b1/f1", sampleFile "/b1/f1" 9)] =
      [⟨"/b1/f1", change⟩] :=
  Calculate_size_change [("/b1", sampleDir "/b1")] _ _ "/b1/f1" (sampleFile "/b1/f1" 7) 9
    (List.Perm.swap _ _ _) (List.Perm.swap _ _ _) (by decide) (by decide) (by decide)
    (by decide)

/-- C6: the second loop has no test for the reserved file.  When
`/.fader_index` is in `prev` and not in `current`, the diff holds an `unlink`
op for it. -/
theorem Calculate_reserved_unlink :
    HasSuffix "/.fader_index" SyncInfoFileName = true ∧
    Calculate [("/.fader_index", sampleFile "/.fader_index" 7)] [] =
      [⟨"/.fader_index", unlink⟩] := by
  decide

/-- C7: two enumeration orders of the same two maps give op lists that are
permutations of each other. -/
theorem Calculate_order_insensitive (prev prev2 current current2 : tree)
    (hprev : prev.WF) (hcur : current.WF)
    (hp : prev.Perm prev2) (hc : current.Perm current2) :
    (Calculate prev current).Perm (Calculate prev2 current2) :=
  Calculate_perm_of_perm hprev hcur hp hc

theorem Calculate_order_insensitive_witness :
    (Calculate [("/b1", sampleDir "/b1"), ("/b1/f1", sampleFile "/b1/f1" 7)]
      [("/b2", sampleDir "/b2"), ("/b2/f2", sampleFile "/b2/f2" 3)]).Perm
    (Calculate [("/b1/f1", sampleFile "/b1/f1" 7), ("/b1", sampleDir "/b1")]
      [("/b2/f2", sampleFile "/b2/f2" 3), ("/b2", sampleDir "/b2")]) :=
  Calculate_order_insensitive _ _ _ _ (by decide) (by decide)
    (List.Perm.swap _ _ _) (List.Perm.swap _ _ _)


/-! ## Splitting a path -/

theorem span_ne_sep_append (sep : Char) (a rest : List Char) (h : sep ∉ a) :
    (a ++ sep :: rest).span (fun c => c != sep) = (a, sep :: rest) := by
  rw [List.span_eq_take_drop]
  induction a with
  | nil => simp [List.takeWhile_cons, List.dropWhile_cons]
  | cons c a ih =>
    have hc : c ≠ sep := fun hcs => h (hcs ▸ List.mem_cons_self _ _)
    have ha : sep ∉ a := fun hm => h (List.mem_cons_of_mem _ hm)
    have hb : (c != sep) = true := by simpa using hc
    have ih2 := ih ha
    rw [Prod.mk.injEq] at ih2
    rw [List.cons_append, List.takeWhile_cons, List.dropWhile_cons]
    simp only [hb, if_true]
    rw [ih2.1, ih2.2]

theorem span_ne_sep_self (sep : Char) (a : List Char) (h : sep ∉ a) :
    a.span (fun c => c != sep) = (a, []) := by
  rw [List.span_eq_take_drop]
  induction a with
  | nil => simp
  | cons c a ih =>
    have hc : c ≠ sep := fun hcs => h (hcs ▸ List.mem_cons_self _ _)
    have ha : sep ∉ a := fun hm => h (List.mem_cons_of_mem _ hm)
    have hb : (c != sep) = true := by simpa using hc
    have ih2 := ih ha
    rw [Prod.mk.injEq] at ih2
    rw [List.takeWhile_cons, List.dropWhile_cons]
    simp only [hb, if_true]
    rw [ih2.1, ih2.2]

theorem splitLoop_append (sep : Char) (a rest : List Char) (k : Nat) (h : sep ∉ a) :
    splitLoop sep (a ++ sep :: rest) (k + 1) = a :: splitLoop sep rest k := by
  rw [splitLoop, span_ne_sep_append sep a rest h]

theorem splitLoop_no_sep (sep : Char) (a : List Char) (k : Nat) (h : sep ∉ a) :
    splitLoop sep a k = [a] := by
  cases k with
  | zero => rw [splitLoop]
  | succ k => rw [splitLoop, span_ne_sep_self sep a h]

/-- A first segment without a separator is split off by `SplitN`. -/
theorem SplitN_append (w rest : String) (k : Nat) (h : '/' ∉ w.data) :
    SplitN (w ++ "/" ++ rest) '/' ((k : Int) + 2) =
      w :: SplitN rest '/' ((k : Int) + 1) := by
  have h0 : ((k : Int) + 2 = 0) = False := by simp; omega
  have h1 : ((k : Int) + 1 = 0) = False := by simp; omega
  have h2 : ((k : Int) + 2 < 0) = False := by simp; omega
  have h3 : ((k : Int) + 1 < 0) = False := by simp; omega
  have e2 : ((k : Int) + 2 - 1).toNat = k + 1 := by omega
  have e1 : ((k : Int) + 1 - 1).toNat = k := by omega
  unfold SplitN
  simp only [h0, h1, h2, h3, if_false, e1, e2]
  have hd : (w ++ "/" ++ rest).data = w.data ++ '/' :: rest.data := by
    simp [String.data_append]
  rw [hd, splitLoop_append '/' w.data rest.data k h]
  simp

theorem SplitN_no_sep (w : String) (h : '/' ∉ w.data) : SplitN w '/' 4 = [w] := by
  unfold SplitN
  simp [splitLoop_no_sep '/' w.data 3 h]

theorem SplitN_length_pos (s : String) : 1 ≤ (SplitN s '/' 4).length := by
  unfold SplitN
  simp only [List.length_map]
  have : (4 : Int) = 0 ↔ False := by decide
  simp only [this, if_false]
  generalize (if (4 : Int) < 0 then List.count '/' s.data else ((4 : Int) - 1).toNat) = k
  cases k with
  | zero => simp [splitLoop]
  | succ k =>
    rw [splitLoop]
    split <;> simp


theorem SplitN_under_root (w rest : String) (h : '/' ∉ w.data) :
    SplitN (w ++ "/" ++ rest) '/' 4 = w :: SplitN rest '/' 3 := by
  have h2 := SplitN_append w rest 2 h
  norm_num at h2
  exact h2

/-! ## The path classifier and the handlers: claims -/

/-- C8, as stated, fails: the path `bucket1/file1/meta.json` has three
segments, not four, and the handlers take `file1` for the bucket and
`meta.json` for the file; `bucket1/file1` has two segments and `bucket1`
one. -/
theorem classify_relative_counterexample :
    SplitN "bucket1/file1/meta.json" '/' 4 = ["bucket1", "file1", "meta.json"] ∧
    (SplitN "bucket1/file1/meta.json" '/' 4).length ≠ 4 ∧
    handleRemoveFile recorder "ws" "bucket1/file1/meta.json" [] =
      some ([Call.deleteFileByName "file1" "meta.json"], none) ∧
    (SplitN "bucket1/file1" '/' 4).length ≠ 3 ∧
    (SplitN "bucket1" '/' 4).length ≠ 2 := by
  decide

/-- C8 (amended): the handlers read the first segment as the workspace root.
Under a root `w` without `/`, the path `w/bucket1/file1/meta.json` has four
segments with bucket `bucket1`, file `file1` and data name `meta.json`, whose
slot is MetaData; `w/bucket1/file1` has three segments, `w/bucket1` two, and
`w` alone one, for which `handleRemoveFile` returns the error
`Workspace deleted`. -/
theorem classify_under_root (w : String) (h : '/' ∉ w.data) :
    SplitN (w ++ "/" ++ "bucket1/file1/meta.json") '/' 4 =
      [w, "bucket1", "file1", "meta.json"] ∧
    detectUsedType "meta.json" = DataUsed.MetaData ∧
    SplitN (w ++ "/" ++ "bucket1/file1") '/' 4 = [w, "bucket1", "file1"] ∧
    SplitN (w ++ "/" ++ "bucket1") '/' 4 = [w, "bucket1"] ∧
    SplitN w '/' 4 = [w] ∧
    ∀ (σ : Type) (env : Bridge σ) (ws : String) (st : σ),
      handleRemoveFile env ws w st = some (st, some "Workspace deleted") := by
  refine ⟨?_, by decide, ?_, ?_, SplitN_no_sep w h, ?_⟩
  · have e : SplitN "bucket1/file1/meta.json" '/' 3 = ["bucket1", "file1", "meta.json"] := by
      decide
    rw [SplitN_under_root w _ h, e]
  · have e : SplitN "bucket1/file1" '/' 3 = ["bucket1", "file1"] := by decide
    rw [SplitN_under_root w _ h, e]
  · have e : SplitN "bucket1" '/' 3 = ["bucket1"] := by decide
    rw [SplitN_under_root w _ h, e]
  · intro σ env ws st
    unfold handleRemoveFile
    simp [SplitN_no_sep w h]

theorem classify_under_root_witness :
    SplitN "ws/bucket1/file1/meta.json" '/' 4 = ["ws", "bucket1", "file1", "meta.json"] :=
  (classify_under_root "ws" (by decide)).1

/-- C9, as stated, fails for the create and modify handler: on the four
segment path `ws/bucket1/file1/meta.json` it calls `ImportFsDataFile` for the
one data file `meta.json`, not `ImportFsVirtualFile`. -/
theorem handleUpdateOrCreate_slot_counterexample :
    (SplitN "ws/bucket1/file1/meta.json" '/' 4).length = 4 ∧
    handleUpdateOrCreate recorder "ws" "ws/bucket1/file1/meta.json" [] =
      some ([Call.ImportFsDataFile "ws" "bucket1" "file1" "meta.json"], none) ∧
    handleUpdateOrCreate recorder "ws" "ws/bucket1/file1/meta.json" [] ≠
      some ([Call.ImportFsVirtualFile "ws" "bucket1" "file1"], none) := by
  decide

/-- C9 (amended): on a path of four segments `[_, bucket, file, data]` the
delete handler makes the one call `ImportFsVirtualFile(bucket, file)` and
returns its error, and the create and modify handler makes the one call
`ImportFsDataFile(bucket, file, data)` and returns `nil`. -/
theorem handlers_four_segments {σ : Type} (env : Bridge σ) (ws name : String) (st : σ)
    (h : (SplitN name '/' 4).length = 4) :
    ∃ root bucketName fileName dataName : String,
      SplitN name '/' 4 = [root, bucketName, fileName, dataName] ∧
      handleRemoveFile env ws name st =
        some (env.ImportFsVirtualFile st ws bucketName fileName) ∧
      handleUpdateOrCreate env ws name st =
        some ((env.ImportFsDataFile st ws bucketName fileName dataName).1, none) := by
  match harr : SplitN name '/' 4, h with
  | [root, bucketName, fileName, dataName], _ =>
    refine ⟨root, bucketName, fileName, dataName, rfl, ?_, ?_⟩
    · unfold handleRemoveFile
      simp only [harr]
      cases hr : env.ImportFsVirtualFile st ws bucketName fileName with
      | mk st2 err => cases err <;> simp [hr]
    · unfold handleUpdateOrCreate
      simp [harr]

theorem handlers_four_segments_witness :
    ∃ root bucketName fileName dataName : String,
      SplitN "ws/bucket1/file1/meta.json" '/' 4 = [root, bucketName, fileName, dataName] ∧
      handleRemoveFile recorder "ws" "ws/bucket1/file1/meta.json" [] =
        some (recorder.ImportFsVirtualFile [] "ws" bucketName fileName) ∧
      handleUpdateOrCreate recorder "ws" "ws/bucket1/file1/meta.json" [] =
        some ((recorder.ImportFsDataFile [] "ws" bucketName fileName dataName).1, none) :=
  handlers_four_segments recorder "ws" "ws/bucket1/file1/meta.json" [] (by decide)

/-- C10, as stated, fails: removing the bucket directory `ws/bucket1` makes no
store call and returns the error `Bucket deleted`. -/
theorem handleRemoveFile_bucket_counterexample :
    (SplitN "ws/bucket1" '/' 4).length = 2 ∧
    handleRemoveFile recorder "ws" "ws/bucket1" [] = some ([], some "Bucket deleted") := by
  decide

/-- C10 (amended): for a removed path of two segments `handleRemoveFile`
calls no function of the store, leaves the world as it is and returns the
error `Bucket deleted`. -/
theorem handleRemoveFile_two_segments {σ : Type} (env : Bridge σ) (ws name : String)
    (st : σ) (h : (SplitN name '/' 4).length = 2) :
    handleRemoveFile env ws name st = some (st, some "Bucket deleted") := by
  unfold handleRemoveFile
  simp [h]

theorem handleRemoveFile_two_segments_witness :
    handleRemoveFile recorder "ws" "ws/bucket1" [] = some ([], some "Bucket deleted") :=
  handleRemoveFile_two_segments recorder "ws" "ws/bucket1" [] (by decide)


/-! ## Segments and the totality of the handlers -/

theorem splitLoop_length_le (sep : Char) (k : Nat) (s : List Char) :
    (splitLoop sep s k).length ≤ k + 1 := by
  induction k generalizing s with
  | zero => simp [splitLoop]
  | succ k ih =>
    rw [splitLoop]
    split
    · simp
    · rename_i a c rest _
      have := ih rest
      simp only [List.length_cons]
      omega

theorem SplitN_four_eq (s : String) :
    SplitN s '/' 4 = (splitLoop '/' s.data 3).map String.mk := by
  unfold SplitN
  have h0 : ((4 : Int) = 0) = False := by simp
  have h1 : ((4 : Int) < 0) = False := by simp
  have h2 : ((4 : Int) - 1).toNat = 3 := by decide
  simp only [h0, h1, if_false, h2]

theorem SplitN_length_le (s : String) : (SplitN s '/' 4).length ≤ 4 := by
  rw [SplitN_four_eq, List.length_map]
  exact splitLoop_length_le '/' 3 s.data

theorem SplitN_length_eq_one_iff (s : String) :
    (SplitN s '/' 4).length = 1 ↔ '/' ∉ s.data := by
  constructor
  · intro h
    rw [SplitN_four_eq, List.length_map, splitLoop, List.span_eq_take_drop] at h
    intro hmem
    have hd : List.dropWhile (fun c => c != '/') s.data ≠ [] := by
      intro hnil
      have hall := List.dropWhile_eq_nil_iff.mp hnil
      have := hall '/' hmem
      simp at this
    revert h
    cases hdw : List.dropWhile (fun c => c != '/') s.data with
    | nil => exact absurd hdw hd
    | cons c rest =>
      intro h
      simp only [List.length_cons] at h
      have := SplitN_length_pos (String.mk rest)
      rw [SplitN_four_eq, List.length_map] at this
      cases hk : splitLoop '/' rest 2 with
      | nil =>
        have h2 : 1 ≤ (splitLoop '/' rest 2).length := by
          rw [splitLoop]
          split <;> simp
        rw [hk] at h2
        simp at h2
      | cons x xs =>
        rw [hk] at h
        simp at h
  · intro h
    rw [SplitN_no_sep s h]
    rfl

theorem handleRemoveFile_isSome {σ : Type} (env : Bridge σ) (ws name : String) (st : σ) :
    (handleRemoveFile env ws name st).isSome = true := by
  unfold handleRemoveFile
  rcases harr : SplitN name '/' 4 with _ | ⟨a, _ | ⟨b, _ | ⟨c, _ | ⟨d, _ | ⟨e, l⟩⟩⟩⟩⟩
  · simp
  · simp
  · simp
  · simp only [List.length_cons, List.length_nil]
    cases hr : env.deleteFileByName st b c with
    | mk st2 err => cases err <;> simp [hr]
  · simp only [List.length_cons, List.length_nil]
    cases hr : env.ImportFsVirtualFile st ws b c with
    | mk st2 err => cases err <;> simp [hr]
  · simp

theorem handleUpdateOrCreate_isSome {σ : Type} (env : Bridge σ) (ws name : String) (st : σ) :
    (handleUpdateOrCreate env ws name st).isSome = true := by
  unfold handleUpdateOrCreate
  rcases harr : SplitN name '/' 4 with _ | ⟨a, _ | ⟨b, _ | ⟨c, _ | ⟨d, _ | ⟨e, l⟩⟩⟩⟩⟩ <;> simp

theorem dispatchOp_isSome {σ : Type} (env : Sys σ) (s : Synchronizer) (op : Op) (w : σ) :
    (dispatchOp env s op w).isSome = true := by
  unfold dispatchOp
  split
  · exact handleUpdateOrCreate_isSome _ _ _ _
  · split
    · exact handleRemoveFile_isSome _ _ _ _
    · rfl

theorem runOps_isSome {σ : Type} (env : Sys σ) (s : Synchronizer) (l : List Op) (w : σ) :
    (runOps env s l w).isSome = true := by
  induction l generalizing w with
  | nil => rfl
  | cons op rest ih =>
    rw [runOps]
    have h := dispatchOp_isSome env s op w
    cases hd : dispatchOp env s op w with
    | none => rw [hd] at h; simp at h
    | some r =>
      obtain ⟨w2, e⟩ := r
      exact ih w2

/-- The loop over the ops goes through a list piece by piece, whatever the
handlers return. -/
theorem runOps_append {σ : Type} (env : Sys σ) (s : Synchronizer) (l1 l2 : List Op) (w : σ) :
    runOps env s (l1 ++ l2) w = (runOps env s l1 w).bind (runOps env s l2) := by
  induction l1 generalizing w with
  | nil => rfl
  | cons op rest ih =>
    rw [List.cons_append, runOps, runOps]
    cases hd : dispatchOp env s op w with
    | none => rfl
    | some r =>
      obtain ⟨w2, e⟩ := r
      exact ih w2

/-! ## The walk never fails -/

theorem walcFunc_err (root : String) (t : tree) (v : Visit) : (walcFunc root t v).2 = none := by
  unfold walcFunc
  split
  · rfl
  · rfl
  · simp only []
    split <;> rfl

theorem Walk_walcFunc_err (root : String) (vs : List Visit) (t : tree) :
    (Walk (walcFunc root) vs t).2 = none := by
  induction vs generalizing t with
  | nil => rfl
  | cons v vs ih =>
    rw [Walk]
    have h := walcFunc_err root t v
    cases hw : walcFunc root t v with
    | mk t2 e =>
      rw [hw] at h
      simp only at h
      subst h
      exact ih t2

theorem newTreeFromFs_err {σ : Type} (env : Sys σ) (w : σ) (root : String) :
    (newTreeFromFs env w root).2 = none := by
  unfold newTreeFromFs
  exact Walk_walcFunc_err root _ _


/-! ## The handlers on the root, the slots and the segments: claims -/

/-- C11: a removed path has one segment exactly when it contains no `/`, and
for such a path `handleRemoveFile` calls nothing, leaves the world as it is
and returns the error `Workspace deleted`. -/
theorem handleRemoveFile_root {σ : Type} (env : Bridge σ) (ws name : String) (st : σ) :
    ((SplitN name '/' 4).length = 1 ↔ '/' ∉ name.data) ∧
    ((SplitN name '/' 4).length = 1 →
      handleRemoveFile env ws name st = some (st, some "Workspace deleted")) := by
  refine ⟨SplitN_length_eq_one_iff name, ?_⟩
  intro h
  unfold handleRemoveFile
  simp [h]

theorem handleRemoveFile_root_witness :
    (SplitN "ws" '/' 4).length = 1 ∧
    handleRemoveFile recorder "ws" "ws" [] = some ([], some "Workspace deleted") :=
  ⟨by decide, (handleRemoveFile_root recorder "ws" "ws" []).2 (by decide)⟩

/-- C18: `detectUsedType` gives StructuralData for `structural_data.json`,
MetaData for `meta.json`, LuaScript for `script.lua` and RawData for every
other name. -/
theorem detectUsedType_convention :
    detectUsedType "structural_data.json" = DataUsed.StructuralData ∧
    detectUsedType "meta.json" = DataUsed.MetaData ∧
    detectUsedType "script.lua" = DataUsed.LuaScript ∧
    ∀ dataName : String, dataName ≠ "structural_data.json" → dataName ≠ "meta.json" →
      dataName ≠ "script.lua" → detectUsedType dataName = DataUsed.RawData := by
  refine ⟨by decide, by decide, by decide, ?_⟩
  intro dataName h1 h2 h3
  unfold detectUsedType
  simp [LuaScriptDataFileName, MetaDataFileName, StructuralDataFileName, h1, h2, h3]

theorem detectUsedType_convention_witness :
    detectUsedType "photo.png" = DataUsed.RawData :=
  detectUsedType_convention.2.2.2 "photo.png" (by decide) (by decide) (by decide)

/-- C19: every string splits into between one and four segments, and neither
handler reads a segment that is not there: both return a result for every
path, environment and world. -/
theorem handlers_total (name : String) :
    1 ≤ (SplitN name '/' 4).length ∧ (SplitN name '/' 4).length ≤ 4 ∧
    ∀ (σ : Type) (env : Bridge σ) (ws : String) (st : σ),
      (handleRemoveFile env ws name st).isSome = true ∧
      (handleUpdateOrCreate env ws name st).isSome = true :=
  ⟨SplitN_length_pos name, SplitN_length_le name, fun _ env ws st =>
    ⟨handleRemoveFile_isSome env ws name st, handleUpdateOrCreate_isSome env ws name st⟩⟩

/-- C20: under the workspace root `data/ws` the create op for
`/bucket1/file1/meta.json` reaches the store with bucket `ws` and file
`bucket1`, and under the root `/srv/ws` with bucket `srv` and file `ws`. -/
theorem dispatchOp_nested_root :
    Join ["data/ws", "/bucket1/file1/meta.json"] = "data/ws/bucket1/file1/meta.json" ∧
    (dispatchOp (simSys "data/ws") ⟨true, "data/ws", []⟩
        ⟨"/bucket1/file1/meta.json", create⟩ emptyWorld).map (fun r => r.1.storeCalls) =
      some [Call.ImportFsDataFile "data/ws" "ws" "bucket1" "file1/meta.json"] ∧
    (dispatchOp (simSys "/srv/ws") ⟨true, "/srv/ws", []⟩
        ⟨"/bucket1/file1/meta.json", create⟩ emptyWorld).map (fun r => r.1.storeCalls) =
      some [Call.ImportFsDataFile "/srv/ws" "srv" "ws" "bucket1/file1/meta.json"] := by
  decide

/-- Under a root of one segment the same op reaches the store with the
bucket and the file of its path. -/
theorem dispatchOp_flat_root :
    (dispatchOp (simSys "ws") ⟨true, "ws", []⟩
        ⟨"/bucket1/file1/meta.json", create⟩ emptyWorld).map (fun r => r.1.storeCalls) =
      some [Call.ImportFsDataFile "ws" "bucket1" "file1" "meta.json"] := by
  decide


/-! ## `Init`: claims -/

/-- Once `inited` is set, `Init` returns `nil` and touches nothing. -/
theorem Init_of_inited {σ : Type} (env : Sys σ) (s : Synchronizer) (w : σ)
    (h : s.inited = true) : Init env s w = (s, w, none) := by
  unfold Init
  simp [h]

/-- C12: when the steps before the decision meet no error and leave the
flags `workSpaceHasData` and `dbHasBuckets`, a first `Init` imports when the
workspace has data, exports when it has none and the store has buckets, and
does neither when both are empty. -/
theorem Init_bootstrap {σ : Type} (env : Sys σ) (s s2 : Synchronizer) (w w1 w2 : σ)
    (workSpaceHasData dbHasBuckets : Bool)
    (hs : s.inited = false)
    (h1 : scanWorkspace env s w = (workSpaceHasData, w1, none))
    (h2 : loadTree env s w1 = (s2, w2, none))
    (h3 : dbHasData env w2 = (dbHasBuckets, none))
    (h4 : workSpaceHasData = false → dbHasBuckets = true →
      (env.Export w2 s2.workSpacePath).2 = none)
    (h5 : workSpaceHasData = true → (env.ImportWorkspace w2 s2.workSpacePath).2 = none) :
    Init env s w =
      if workSpaceHasData = true then
        ({ s2 with inited := true }, (env.ImportWorkspace w2 s2.workSpacePath).1, none)
      else if dbHasBuckets = true then
        ({ s2 with inited := true }, (env.Export w2 s2.workSpacePath).1, none)
      else (s2, w2, none) := by
  unfold Init
  simp only [hs, h1, h2, Bool.false_eq_true, if_false]
  unfold reconcile
  simp only [h3]
  cases workSpaceHasData <;> cases dbHasBuckets
  · simp
  · have h := h4 rfl rfl
    cases hE : env.Export w2 s2.workSpacePath with
    | mk w3 e =>
      rw [hE] at h
      simp only at h
      subst h
      simp
  · have h := h5 rfl
    cases hI : env.ImportWorkspace w2 s2.workSpacePath with
    | mk w3 e =>
      rw [hI] at h
      simp only at h
      subst h
      simp
  · have h := h5 rfl
    cases hI : env.ImportWorkspace w2 s2.workSpacePath with
    | mk w3 e =>
      rw [hI] at h
      simp only at h
      subst h
      simp

theorem Init_bootstrap_witness :
    Init (simSys "ws") ⟨false, "ws", []⟩ { emptyWorld with buckets := ["bucket1"] } =
      (⟨true, "ws", []⟩,
        ⟨true, [".fader_index", "bucket1"], [], ["bucket1"],
          ["OpenFile for writing", "Encode", "Export"], []⟩, none) :=
  (Init_bootstrap (simSys "ws") ⟨false, "ws", []⟩ ⟨false, "ws", []⟩
    { emptyWorld with buckets := ["bucket1"] } { emptyWorld with buckets := ["bucket1"] }
    ⟨true, [".fader_index"], [], ["bucket1"], ["OpenFile for writing", "Encode"], []⟩
    false true rfl (by decide) (by decide) (by decide) (by decide) (by decide)).trans
    (by decide)

/-- C13, as stated, fails: with an empty workspace directory and an empty
store `Init` creates the index file `.fader_index` in the workspace. -/
theorem Init_both_empty_counterexample :
    (simSys "ws").ReadDir emptyWorld "ws" = (0, none) ∧
    dbHasData (simSys "ws") emptyWorld = (false, none) ∧
    (Init (simSys "ws") ⟨false, "ws", []⟩ emptyWorld).2.2 = none ∧
    (Init (simSys "ws") ⟨false, "ws", []⟩ emptyWorld).2.1.entries = [".fader_index"] ∧
    (Init (simSys "ws") ⟨false, "ws", []⟩ emptyWorld).2.1 ≠ emptyWorld := by
  decide

/-- What the calls `MkdirAll` leave as it is, `scanWorkspace` leaves as it is. -/
theorem scanWorkspace_frame {σ S : Type} (env : Sys σ) (store : σ → S)
    (fMkdir : ∀ (w : σ) (p : String), store (env.MkdirAll w p).1 = store w)
    (s : Synchronizer) (w : σ) : store (scanWorkspace env s w).2.1 = store w := by
  unfold scanWorkspace
  cases hS : env.Stat w s.workSpacePath with
  | none =>
    simp only
    cases hR : env.ReadDir w s.workSpacePath with
    | mk n e => cases e <;> rfl
  | some err =>
    simp only
    by_cases hN : env.IsNotExist (some err) = true
    · rw [if_pos hN]
      have hm := fMkdir w s.workSpacePath
      cases hM : env.MkdirAll w s.workSpacePath with
      | mk w2 e =>
        rw [hM] at hm
        cases e <;> exact hm
    · rw [if_neg hN]

/-- What the calls `OpenFile`, `Encode` and `Close` leave as it is,
`EncodeToFile` leaves as it is. -/
theorem EncodeToFile_frame {σ S : Type} (env : Sys σ) (store : σ → S)
    (fOpen : ∀ (w : σ) (p : String) (b : Bool), store (env.OpenFile w p b).1 = store w)
    (fEnc : ∀ (w : σ) (p : String) (t : tree), store (env.jsonEncode w p t).1 = store w)
    (fClose : ∀ (w : σ) (p : String), store (env.Close w p).1 = store w)
    (w : σ) (t : tree) (p : String) : store (EncodeToFile env w t p).1 = store w := by
  unfold EncodeToFile Encode
  have ho := fOpen w p true
  cases hO : env.OpenFile w p true with
  | mk w2 e2 =>
    rw [hO] at ho
    cases e2 with
    | some err => exact ho
    | none =>
      simp only
      have he := fEnc w2 p t
      cases hE : env.jsonEncode w2 p t with
      | mk w3 e3 =>
        rw [hE] at he
        cases e3 with
        | some err => exact he.trans ho
        | none =>
          simp only
          have hc := fClose w3 p
          cases hC : env.Close w3 p with
          | mk w4 e4 =>
            rw [hC] at hc
            cases e4 <;> exact hc.trans (he.trans ho)

/-- C13 (amended): when a first `Init` finds no data in the workspace, no
index file and no bucket in the store, it calls neither `Export` nor
`ImportWorkspace`; the one call to the store is the enumeration of the
buckets in `dbHasData`.  The world after `Init` is the world after the
directory is made when missing (`scanWorkspace`) and the fresh snapshot is put
into the index file (`EncodeToFile`), and whatever part `store` of the world
the file system calls `MkdirAll`, `OpenFile`, `Encode` and `Close` leave as it
is, such as the contents of the store, is after `Init` as before. -/
theorem Init_both_empty {σ S : Type} (env : Sys σ) (store : σ → S) (s : Synchronizer)
    (w w1 : σ)
    (hs : s.inited = false)
    (h1 : scanWorkspace env s w = (false, w1, none))
    (hidx : env.Stat w1 (Join [s.workSpacePath, SyncInfoFileName]) ≠ none)
    (henc : (EncodeToFile env w1 (newTreeFromFs env w1 s.workSpacePath).1
      (Join [s.workSpacePath, SyncInfoFileName])).2 = none)
    (hdb : dbHasData env (EncodeToFile env w1 (newTreeFromFs env w1 s.workSpacePath).1
      (Join [s.workSpacePath, SyncInfoFileName])).1 = (false, none))
    (fMkdir : ∀ (w : σ) (p : String), store (env.MkdirAll w p).1 = store w)
    (fOpen : ∀ (w : σ) (p : String) (b : Bool), store (env.OpenFile w p b).1 = store w)
    (fEnc : ∀ (w : σ) (p : String) (t : tree), store (env.jsonEncode w p t).1 = store w)
    (fClose : ∀ (w : σ) (p : String), store (env.Close w p).1 = store w) :
    Init env s w =
      ({ s with tree := (newTreeFromFs env w1 s.workSpacePath).1 },
        (EncodeToFile env w1 (newTreeFromFs env w1 s.workSpacePath).1
          (Join [s.workSpacePath, SyncInfoFileName])).1, none) ∧
    store (Init env s w).2.1 = store w := by
  have hload : loadTree env s w1 =
      ({ s with tree := (newTreeFromFs env w1 s.workSpacePath).1 },
        (EncodeToFile env w1 (newTreeFromFs env w1 s.workSpacePath).1
          (Join [s.workSpacePath, SyncInfoFileName])).1, none) := by
    unfold loadTree
    have hn := newTreeFromFs_err env w1 s.workSpacePath
    cases hT : newTreeFromFs env w1 s.workSpacePath with
    | mk t e =>
      rw [hT] at hn henc
      simp only at hn henc
      subst hn
      cases hE : EncodeToFile env w1 t (Join [s.workSpacePath, SyncInfoFileName]) with
      | mk w2 e2 =>
        rw [hE] at henc
        simp only at henc
        subst henc
        simp [hidx, hE]
  have hInit : Init env s w =
      ({ s with tree := (newTreeFromFs env w1 s.workSpacePath).1 },
        (EncodeToFile env w1 (newTreeFromFs env w1 s.workSpacePath).1
          (Join [s.workSpacePath, SyncInfoFileName])).1, none) := by
    unfold Init
    simp only [hs, h1, hload, Bool.false_eq_true, if_false]
    unfold reconcile
    simp only [hdb]
    simp
  refine ⟨hInit, ?_⟩
  rw [hInit]
  have hsc := scanWorkspace_frame env store fMkdir s w
  rw [h1] at hsc
  exact (EncodeToFile_frame env store fOpen fEnc fClose w1 _ _).trans hsc

theorem Init_both_empty_witness :
    Init (simSys "ws") ⟨false, "ws", []⟩ { emptyWorld with wsExists := false } =
      (⟨false, "ws", []⟩,
        ⟨true, [".fader_index"], [], [], ["MkdirAll", "OpenFile for writing", "Encode"], []⟩,
        none) ∧
    ((Init (simSys "ws") ⟨false, "ws", []⟩ { emptyWorld with wsExists := false }).2.1.buckets,
      (Init (simSys "ws") ⟨false, "ws", []⟩
        { emptyWorld with wsExists := false }).2.1.storeCalls) = ([], []) :=
  let h := Init_both_empty (simSys "ws") (fun w => (w.buckets, w.storeCalls))
    ⟨false, "ws", []⟩ { emptyWorld with wsExists := false }
    ⟨true, [], [], [], ["MkdirAll"], []⟩ rfl (by decide) (by decide) (by decide)
    (by decide) (fun _ _ => rfl) (fun _ _ b => by cases b <;> rfl) (fun _ _ _ => rfl)
    (fun _ _ => rfl)
  ⟨h.1.trans (by decide), h.2⟩

/-- C14: with an empty workspace and an empty store the first `Init` returns
`nil` and leaves `inited` unset; the second `Init` then runs again, reads the
index file and calls `ImportWorkspace`. -/
theorem Init_twice_both_empty :
    (Init (simSys "ws") ⟨false, "ws", []⟩ emptyWorld).2.2 = none ∧
    (Init (simSys "ws") ⟨false, "ws", []⟩ emptyWorld).1.inited = false ∧
    (Init (simSys "ws") (Init (simSys "ws") ⟨false, "ws", []⟩ emptyWorld).1
      (Init (simSys "ws") ⟨false, "ws", []⟩ emptyWorld).2.1).2.1.calls =
      ["OpenFile for writing", "Encode", "ImportWorkspace"] ∧
    (Init (simSys "ws") (Init (simSys "ws") ⟨false, "ws", []⟩ emptyWorld).1
      (Init (simSys "ws") ⟨false, "ws", []⟩ emptyWorld).2.1).2.1 ≠
      (Init (simSys "ws") ⟨false, "ws", []⟩ emptyWorld).2.1 := by
  decide


/-! ## The tick of `Watch`: claims -/

theorem Calculate_op_kind (prev current : tree) (op : Op) (h : op ∈ Calculate prev current) :
    (op.Op = change ∨ op.Op = create ∨ op.Op = mkDir) ∨ (op.Op = unlink ∨ op.Op = rmDir) := by
  rw [Calculate_eq, List.mem_append] at h
  rcases h with h | h
  · obtain ⟨e, _, he⟩ := List.mem_flatMap.mp h
    rcases (checkNew_mem prev e op he).2.1 with hk | hk | hk
    · exact Or.inl (Or.inr (Or.inl hk))
    · exact Or.inl (Or.inr (Or.inr hk))
    · exact Or.inl (Or.inl hk)
  · obtain ⟨e, _, he⟩ := List.mem_flatMap.mp h
    have hop := (checkDeletes_mem current e op he).2
    rw [hop]
    cases e.2.IsDir
    · exact Or.inr (Or.inl rfl)
    · exact Or.inr (Or.inr rfl)

theorem tick_eq {σ : Type} (env : Sys σ) (s : Synchronizer) (w w1 : σ) (current : tree)
    (hscan : newTreeFromFs env w s.workSpacePath = (current, none))
    (hrun : runOps env s (Calculate s.tree current) w = some w1) :
    tick env s w =
      some (if Calculate s.tree current = [] then (s, w1, true)
        else ({ s with tree := current },
          (EncodeToFile env w1 current (Join [s.workSpacePath, SyncInfoFileName])).1, true)) := by
  unfold tick
  simp only [hscan, hrun]
  cases hc : Calculate s.tree current with
  | nil => simp
  | cons op rest => simp

/-- C16: in a tick whose rescan gives the snapshot `current`, the loop over
the ops of `Calculate` reaches every op and calls its handler on the world the
ops before it left, whatever errors those returned: `handleUpdateOrCreate`
for the kinds `change`, `create` and `mkDir`, `handleRemoveFile` for `unlink`
and `rmDir`, and every op has one of these kinds.  After the tick the held
snapshot is `current` when there was an op and the old one when there was
none. -/
theorem tick_dispatches_every_op {σ : Type} (env : Sys σ) (s : Synchronizer) (w : σ)
    (current : tree) (hscan : newTreeFromFs env w s.workSpacePath = (current, none)) :
    ∃ w1 : σ, runOps env s (Calculate s.tree current) w = some w1 ∧
      (∀ (ops1 : List Op) (op : Op) (ops2 : List Op),
        Calculate s.tree current = ops1 ++ op :: ops2 →
        ∃ (wa wb : σ) (e : error),
          runOps env s ops1 w = some wa ∧
          ((op.Op = change ∨ op.Op = create ∨ op.Op = mkDir) ∨
            (op.Op = unlink ∨ op.Op = rmDir)) ∧
          ((op.Op = change ∨ op.Op = create ∨ op.Op = mkDir) →
            handleUpdateOrCreate env.toBridge s.workSpacePath
              (Join [s.workSpacePath, op.Path]) wa = some (wb, e)) ∧
          ((op.Op = unlink ∨ op.Op = rmDir) →
            handleRemoveFile env.toBridge s.workSpacePath
              (Join [s.workSpacePath, op.Path]) wa = some (wb, e)) ∧
          runOps env s ops2 wb = some w1) ∧
      tick env s w =
        some (if Calculate s.tree current = [] then (s, w1, true)
          else ({ s with tree := current },
            (EncodeToFile env w1 current (Join [s.workSpacePath, SyncInfoFileName])).1,
            true)) := by
  obtain ⟨w1, hw1⟩ := Option.isSome_iff_exists.mp
    (runOps_isSome env s (Calculate s.tree current) w)
  refine ⟨w1, hw1, ?_, tick_eq env s w w1 current hscan hw1⟩
  intro ops1 op ops2 hdec
  obtain ⟨wa, hwa⟩ := Option.isSome_iff_exists.mp (runOps_isSome env s ops1 w)
  obtain ⟨r, hr⟩ := Option.isSome_iff_exists.mp (dispatchOp_isSome env s op wa)
  obtain ⟨wb, e⟩ := r
  have hmem : op ∈ Calculate s.tree current := by
    rw [hdec]
    exact List.mem_append_right _ (List.mem_cons_self _ _)
  refine ⟨wa, wb, e, hwa, Calculate_op_kind s.tree current op hmem, ?_, ?_, ?_⟩
  · intro hk
    have hd : dispatchOp env s op wa =
        handleUpdateOrCreate env.toBridge s.workSpacePath
          (Join [s.workSpacePath, op.Path]) wa := by
      unfold dispatchOp
      rw [if_pos hk]
    rw [← hd]
    exact hr
  · intro hk
    have hnot : ¬ (op.Op = change ∨ op.Op = create ∨ op.Op = mkDir) := by
      rcases hk with hk | hk <;> rw [hk] <;> decide
    have hd : dispatchOp env s op wa =
        handleRemoveFile env.toBridge s.workSpacePath
          (Join [s.workSpacePath, op.Path]) wa := by
      unfold dispatchOp
      rw [if_neg hnot, if_pos hk]
    rw [← hd]
    exact hr
  · have h := hw1
    rw [hdec, runOps_append, hwa] at h
    simp only [Option.bind] at h
    rw [runOps, hr] at h
    exact h

theorem tick_dispatches_every_op_witness :
    ∃ w1 : SimWorld,
      runOps (simSys "ws")
        ⟨true, "ws", [("/b1", sampleDir "/b1"), ("/b1/f1", sampleDir "/b1/f1")]⟩
        (Calculate [("/b1", sampleDir "/b1"), ("/b1/f1", sampleDir "/b1/f1")] [])
        emptyWorld = some w1 ∧
      w1.storeCalls = [Call.deleteFileByName "b1" "f1"] ∧
      (∃ (wa wb : SimWorld) (e : error),
        runOps (simSys "ws")
          ⟨true, "ws", [("/b1", sampleDir "/b1"), ("/b1/f1", sampleDir "/b1/f1")]⟩
          [⟨"/b1", rmDir⟩] emptyWorld = some wa ∧
        handleRemoveFile (simSys "ws").toBridge "ws" (Join ["ws", "/b1/f1"]) wa =
          some (wb, e) ∧
        wb.storeCalls = [Call.deleteFileByName "b1" "f1"]) ∧
      tick (simSys "ws")
        ⟨true, "ws", [("/b1", sampleDir "/b1"), ("/b1/f1", sampleDir "/b1/f1")]⟩
        emptyWorld =
        some (⟨true, "ws", []⟩,
          (EncodeToFile (simSys "ws") w1 [] (Join ["ws", SyncInfoFileName])).1, true) := by
  obtain ⟨w1, h1, h2, h3⟩ := tick_dispatches_every_op (simSys "ws")
    ⟨true, "ws", [("/b1", sampleDir "/b1"), ("/b1/f1", sampleDir "/b1/f1")]⟩
    emptyWorld [] (by decide)
  have hrun : runOps (simSys "ws")
      ⟨true, "ws", [("/b1", sampleDir "/b1"), ("/b1/f1", sampleDir "/b1/f1")]⟩
      (Calculate [("/b1", sampleDir "/b1"), ("/b1/f1", sampleDir "/b1/f1")] [])
      emptyWorld = some ⟨true, [], [], [], [], [Call.deleteFileByName "b1" "f1"]⟩ := by
    decide
  have hw : w1 = ⟨true, [], [], [], [], [Call.deleteFileByName "b1" "f1"]⟩ :=
    Option.some.inj (h1.symm.trans hrun)
  obtain ⟨wa, wb, e, ha, _, _, hrem, hrest⟩ :=
    h2 [⟨"/b1", rmDir⟩] ⟨"/b1/f1", rmDir⟩ [] (by decide)
  have hwb : wb = w1 := Option.some.inj hrest
  have hne : Calculate [("/b1", sampleDir "/b1"), ("/b1/f1", sampleDir "/b1/f1")] [] ≠ [] := by
    decide
  refine ⟨w1, h1, by rw [hw], ⟨wa, wb, e, ha, hrem (Or.inr rfl), by rw [hwb, hw]⟩, ?_⟩
  rw [h3]
  simp only [if_neg hne]

/-- The handler of the first op returns the error `Bucket deleted`, and the
second op is handled all the same. -/
theorem runOps_after_error :
    (dispatchOp (simSys "ws") ⟨true, "ws", []⟩ ⟨"/b1", rmDir⟩ emptyWorld).map Prod.snd =
      some (some "Bucket deleted") ∧
    (runOps (simSys "ws") ⟨true, "ws", []⟩ [⟨"/b1", rmDir⟩, ⟨"/b1/f1", rmDir⟩]
      emptyWorld).map (fun w => w.storeCalls) = some [Call.deleteFileByName "b1" "f1"] := by
  decide

/-- C17: every tick ends with the loop still running.  The rescan never
returns an error, because `walcFunc` answers `nil` to every error of the walk,
and an error of a handler only leaves the `switch`; no handler panics. -/
theorem tick_keeps_running {σ : Type} (env : Sys σ) (s : Synchronizer) (w : σ) :
    (newTreeFromFs env w s.workSpacePath).2 = none ∧
    ∃ (s2 : Synchronizer) (w2 : σ), tick env s w = some (s2, w2, true) := by
  have hn := newTreeFromFs_err env w s.workSpacePath
  refine ⟨hn, ?_⟩
  cases hT : newTreeFromFs env w s.workSpacePath with
  | mk current e =>
    rw [hT] at hn
    simp only at hn
    subst hn
    obtain ⟨w1, hw1⟩ := Option.isSome_iff_exists.mp
      (runOps_isSome env s (Calculate s.tree current) w)
    rw [tick_eq env s w w1 current hT hw1]
    by_cases hc : Calculate s.tree current = []
    · exact ⟨s, w1, by rw [if_pos hc]⟩
    · exact ⟨_, _, by rw [if_neg hc]⟩


end Synchronizer
